import Mathlib

/-!
Verification of the sampling and indexing subsystem of the CEBRA repository:
the `Dataset` / `Loader` contract from `cebra/data/base.py`, the noise-function
registry from `cebra/datasets/generate_synthetic_data.py`, and the Poisson
spike-count reference implementation exercised by `tests/test_datasets.py`.

Machine integers of the Python/PyTorch code are modelled as `Int`/`Nat`
(PyTorch long tensors do not overflow at the sizes appearing here), 1-D
tensors as `List Int`, and a function that may raise as an `Except`-valued
function whose `.error` branch corresponds to a raised exception.
-/

namespace Cebra

/-- `Offset(left, right)` from `cebra.data.datatypes`: the window `[-left, right)`
of relative time steps around a reference index.  Only the two fields are used
by the code under verification. -/
structure Offset where
  left : Nat
  right : Nat

/-- `torch.clamp(x, lo, hi)` on integer tensors, applied entrywise:
`out = min (max x lo) hi`.  In particular, when `lo > hi` every input is mapped
to `hi`; `torch.clamp` does not raise in that case. -/
def clamp (x lo hi : Int) : Int := min (max x lo) hi

/-- `torch.arange(-left, right)` as built in `Dataset.expand_index`
(`cebra/data/base.py`): the list `[-left, -left+1, ..., right-1]`, of length
`left + right`. -/
def Offset.arange (off : Offset) : List Int :=
  (List.range (off.left + off.right)).map (fun (j : Nat) => (j : Int) - off.left)

/-- `Dataset.expand_index` from `cebra/data/base.py`:

    offset = torch.arange(-self.offset.left, self.offset.right, ...)
    index = torch.clamp(index, self.offset.left, len(self) - self.offset.right)
    return index[:, None] + offset[None, :]

`N` stands for `len(self)`.  The broadcasted sum `index[:, None] + offset[None, :]`
is the matrix with rows indexed by the (clamped) seeds.  No operation in the
body can raise, so the embedding always returns `Except.ok`. -/
def expand_index (N : Nat) (off : Offset) (index : List Int) :
    Except String (List (List Int)) :=
  let offsets := off.arange
  let clamped := index.map (fun i => clamp i off.left ((N : Int) - off.right))
  Except.ok (clamped.map (fun c => offsets.map (fun o => c + o)))

/-- `Loader.__post_init__` from `cebra/data/base.py`:

    if self.num_steps is None or self.num_steps <= 0:
        raise ValueError(...)
    if self.batch_size is not None and self.batch_size <= 0:
        raise ValueError(...)

A raised `ValueError` is the `.error` branch. -/
def Loader.post_init (num_steps batch_size : Option Int) : Except String Unit :=
  match num_steps with
  | none => Except.error "num_steps cannot be less than or equal to zero or None."
  | some n =>
    if n ≤ 0 then
      Except.error "num_steps cannot be less than or equal to zero or None."
    else
      match batch_size with
      | some b =>
        if b ≤ 0 then
          Except.error "Batch size has to be None, or a non-negative value."
        else Except.ok ()
      | none => Except.ok ()

/-- The capability of the dataset consumed by `Loader.__iter__`:
`load_batch` materializes a `BatchIndex` (type `I`) into a `Batch` (type `B`). -/
structure DatasetOps (I B : Type) where
  load_batch : I → B

/-- The state of a validly constructed `Loader` (`cebra/data/base.py`), with its
abstract collaborators: `get_indices k bs` is the result of the `k`-th call to
the subclass-defined `get_indices(num_samples=batch_size)`; the randomness of
that call is absorbed into the function argument `k`. -/
structure Loader (I B : Type) where
  dataset : DatasetOps I B
  num_steps : Nat
  batch_size : Option Int
  get_indices : Nat → Option Int → I

/-- `Loader.__len__`: returns `self.num_steps`. -/
def Loader.len {I B : Type} (l : Loader I B) : Nat := l.num_steps

/-- `Loader.__iter__`:

    for _ in range(len(self)):
        index = self.get_indices(num_samples=self.batch_size)
        yield self.dataset.load_batch(index)

modelled as the list of the yielded batches, the `k`-th yield coming from the
`k`-th call of `get_indices`. -/
def Loader.iter {I B : Type} (l : Loader I B) : List B :=
  (List.range l.len).map (fun k => l.dataset.load_batch (l.get_indices k l.batch_size))

/-- A concrete loader used to instantiate the `Loader` theorems. -/
def sampleLoader : Loader Nat Nat :=
  { dataset := ⟨fun i => i + 100⟩
    num_steps := 2
    batch_size := some 4
    get_indices := fun k _ => k }

/-- `Dataset.continuous_index` default accessor (`cebra/data/base.py`):
`return None`.  The Python `None` sentinel is `Option.none`; an empty index
array would be `some []`. -/
def Dataset.continuous_index : Option (List ℚ) := none

/-- `Dataset.discrete_index` default accessor (`cebra/data/base.py`):
`return None`. -/
def Dataset.discrete_index : Option (List Int) := none

/-- The model collaborator of `Dataset.configure_for`: exposes `get_offset()`. -/
structure Model where
  get_offset : Offset

/-- The mutable attributes of a `Dataset` instance touched by `__init__` and
`configure_for`: the bound `offset` and the `device` managed by
`cebra.io.HasDevice`. -/
structure DatasetState where
  offset : Offset
  device : String

/-- `Dataset.__init__` (`cebra/data/base.py`): binds the default offset,
`self.offset = cebra.data.Offset(0, 1)`, then initializes the device. -/
def Dataset.init (device : String) : DatasetState :=
  { offset := ⟨0, 1⟩, device := device }

/-- `Dataset.configure_for` (`cebra/data/base.py`):
`self.offset = model.get_offset()` — the only statement of the method. -/
def Dataset.configure_for (s : DatasetState) (m : Model) : DatasetState :=
  { s with offset := m.get_offset }

/-- The maximum of a list of counts (`max(values)`, with `0` for the empty list). -/
def listMax (l : List Nat) : Nat := l.foldr max 0

/-- Modelled from the spec: a `np.bincount`-style histogram over the bins
`0, ..., m - 1`: entry `b` counts the trials whose spike count equals `b`.
(`cebra/datasets/poisson.py` is not among the sources; its histogram contract
is taken from the spec and from `tests/test_datasets.py`.) -/
def bincount (m : Nat) (values : List Nat) : List Nat :=
  (List.range m).map (fun b => values.count b)

/-- Modelled from the spec: the `(bins, histogram)` pair over the empirical
count distribution, the bins covering every observed count. -/
def countHistogram (values : List Nat) : List Nat × List Nat :=
  (List.range (listMax values + 1), bincount (listMax values + 1) values)

/-- Modelled from the spec: `PoissonNeuron(spike_rate, num_repeats)` of
`cebra/datasets/poisson.py` (not among the sources): a single simulated neuron
with a fixed mean rate, queried for `num_repeats` independent trials. -/
structure PoissonNeuron where
  spike_rate : ℚ
  num_repeats : Nat

/-- Modelled from the spec: `sample_poisson` draws `num_repeats` raw Poisson
counts — supplied here as the explicit list `draws` of the random draws — and
returns the empirical `(bins, histogram)` pair over them. -/
def PoissonNeuron.sample_poisson (n : PoissonNeuron) (draws : List Nat) :
    List Nat × List Nat :=
  countHistogram draws

/-- Modelled from the spec: `sample_spikes` simulates `num_repeats`
refractory-corrected spike trains; `draws` is the list of the per-trial spike
counts produced by the (random) point-process simulation. -/
def PoissonNeuron.sample_spikes (n : PoissonNeuron) (draws : List Nat) :
    List Nat × List Nat :=
  countHistogram draws

/-- Modelled from the spec: `sample_poisson_estimate` evaluates the analytic
Poisson PMF (`pmf`, an external library function) at the integer counts
`0, ..., m - 1` and scales it by `num_repeats`. -/
def PoissonNeuron.sample_poisson_estimate (n : PoissonNeuron) (pmf : Nat → ℚ)
    (m : Nat) : List Nat × List ℚ :=
  (List.range m, (List.range m).map (fun b => pmf b * n.num_repeats))

/-- A tensor, modelled as its shape vector and its flattened entries. -/
structure Tensor (α : Type) where
  shape : List Nat
  data : List α

/-- Modelled from the spec: `PoissonNeuronTransform(num_neurons, refractory_period)`
of `cebra/datasets/poisson.py` (not among the sources): a stateless adapter
that applies the refractory-corrected spike sampler entrywise. -/
structure PoissonNeuronTransform where
  num_neurons : Nat
  refractory_period : ℚ

/-- Modelled from the spec: applying the transform replaces each scalar rate
entry by one independent draw of a refractory-corrected spike count at that
rate; `draw rp p r` is the draw at refractory period `rp` for the entry at
flat position `p` with rate `r` (one independent stream per entry). -/
def PoissonNeuronTransform.apply (tr : PoissonNeuronTransform)
    (draw : ℚ → Nat → ℚ → Nat) (rates : Tensor ℚ) : Tensor Nat :=
  { shape := rates.shape
    data := (rates.data.enum).map (fun p => draw tr.refractory_period p.1 p.2) }

/-- The Python exception kinds distinguished by the error-handling design of
`cebra/datasets/generate_synthetic_data.py`: a `ValueError`-style
configuration error versus the `NotImplementedError` stub signal. -/
inductive PyError where
  | valueError : String → PyError
  | notImplementedError : PyError

/-- A registered noise function of `cebra/datasets/generate_synthetic_data.py`:
takes a rate/mean array and returns samples of the same length, or raises. -/
abbrev NoiseFun : Type := List ℚ → Except PyError (List ℚ)

/-- The library sampling primitives called by the noise functions
(`np.random.poisson`, `scipy.stats.truncnorm.rvs`, `np.random.laplace`,
`np.random.uniform`, `scipy.stats.distributions.t.rvs`), abstracted as
arbitrary draw functions. -/
structure NoiseDraws where
  poisson_draw : List ℚ → List ℚ
  truncnorm_draw : List ℚ → List ℚ
  laplace_draw : List ℚ → List ℚ
  uniform_draw : Nat → List ℚ
  t_draw : List ℚ → List ℚ

/-- `poisson(x)`: `return np.random.poisson(x)`. -/
def noise_poisson (d : NoiseDraws) : NoiseFun :=
  fun x => Except.ok (d.poisson_draw x)

/-- `gaussian(x)`: `return scipy.stats.truncnorm.rvs(0, 1000, loc=x)`. -/
def noise_gaussian (d : NoiseDraws) : NoiseFun :=
  fun x => Except.ok (d.truncnorm_draw x)

/-- `laplace(x)`: `return np.clip(np.random.laplace(x), 0, 1000)` (the clip of
the source written with its keyword arguments spelled out). -/
def noise_laplace (d : NoiseDraws) : NoiseFun :=
  fun x => Except.ok ((d.laplace_draw x).map (fun v => min (max v 0) 1000))

/-- `uniform(x)`: `return np.random.uniform(0, 2, x.shape) + x`. -/
def noise_uniform (d : NoiseDraws) : NoiseFun :=
  fun x => Except.ok (List.zipWith (fun u v => u + v) (d.uniform_draw x.length) x)

/-- `t(x)`: `return scipy.stats.distributions.t.rvs(2, loc=x)`. -/
def noise_t (d : NoiseDraws) : NoiseFun :=
  fun x => Except.ok (d.t_draw x)

/-- `refractory_poisson(x)`: `raise NotImplementedError()`. -/
def noise_refractory_poisson : NoiseFun :=
  fun _ => Except.error PyError.notImplementedError

/-- The `__noises` registry of `cebra/datasets/generate_synthetic_data.py`,
populated by the `@_register_noise` decorators in source order and keyed by
`func.__name__`. -/
def noiseRegistry (d : NoiseDraws) : List (String × NoiseFun) :=
  [("poisson", noise_poisson d), ("gaussian", noise_gaussian d),
   ("laplace", noise_laplace d), ("uniform", noise_uniform d),
   ("t", noise_t d), ("refractory_poisson", noise_refractory_poisson)]

end Cebra

namespace Cebra

theorem clamp_mem (x lo hi : Int) (h : lo ≤ hi) :
    lo ≤ clamp x lo hi ∧ clamp x lo hi ≤ hi := by
  unfold clamp
  omega

theorem clamp_of_gt (x lo hi : Int) (h : hi < lo) : clamp x lo hi = hi := by
  unfold clamp
  omega

theorem expand_index_eq (N : Nat) (off : Offset) (index : List Int) :
    expand_index N off index =
      Except.ok (index.map (fun s => (List.range (off.left + off.right)).map
        (fun (j : Nat) => clamp s off.left ((N : Int) - off.right) + ((j : Int) - off.left)))) := by
  unfold expand_index Offset.arange
  simp [List.map_map, Function.comp]

/-- C1: for `left + right ≤ N` and any 1-D integer index tensor, `expand_index`
returns a matrix of shape `(len index, left + right)` with
`result[i, j] = clamp(index[i], left, N - right) + j - left`, all entries in
`[0, N)`. -/
theorem expand_index_shape_bounds (N : Nat) (off : Offset) (index : List Int)
    (h : off.left + off.right ≤ N) :
    ∃ r, expand_index N off index = Except.ok r ∧
      r.length = index.length ∧
      (∀ row ∈ r, row.length = off.left + off.right) ∧
      r = index.map (fun s => (List.range (off.left + off.right)).map
        (fun (j : Nat) => clamp s off.left ((N : Int) - off.right) + ((j : Int) - off.left))) ∧
      (∀ row ∈ r, ∀ x ∈ row, 0 ≤ x ∧ x < (N : Int)) := by
  refine ⟨_, expand_index_eq N off index, by simp, ?_, rfl, ?_⟩
  · intro row hrow
    rcases List.mem_map.mp hrow with ⟨s, _, rfl⟩
    simp
  · intro row hrow x hx
    rcases List.mem_map.mp hrow with ⟨s, _, rfl⟩
    rcases List.mem_map.mp hx with ⟨j, hj, rfl⟩
    rcases List.mem_range.mp hj with hjlt
    have hc := clamp_mem s off.left ((N : Int) - off.right) (by omega)
    omega

/-- C1 witness: `N = 5`, `Offset(1, 2)`, seeds `[0, 10, 3]`. -/
theorem expand_index_shape_bounds_witness :
    1 + 2 ≤ 5 ∧
      ∃ r, expand_index 5 ⟨1, 2⟩ [0, 10, 3] = Except.ok r ∧
        r.length = 3 ∧
        (∀ row ∈ r, row.length = 3) ∧
        r = ([0, 10, 3] : List Int).map (fun s => (List.range 3).map
          (fun (j : Nat) => clamp s 1 ((5 : Int) - 2) + ((j : Int) - 1))) ∧
        (∀ row ∈ r, ∀ x ∈ row, 0 ≤ x ∧ x < (5 : Int)) :=
  ⟨by decide, expand_index_shape_bounds 5 ⟨1, 2⟩ [0, 10, 3] (by decide)⟩

/-- C9: `expand_index` is total over seed indices: under `left + right ≤ N` it
returns normally for every index tensor, however far out of range the seeds
are, each seed being silently clamped into `[left, N - right]` before the
offset deltas are added. -/
theorem expand_index_total (N : Nat) (off : Offset) (index : List Int)
    (h : off.left + off.right ≤ N) :
    ∃ r, expand_index N off index = Except.ok r ∧
      r = index.map (fun s => off.arange.map
        (fun o => clamp s off.left ((N : Int) - off.right) + o)) := by
  refine ⟨_, expand_index_eq N off index, ?_⟩
  unfold Offset.arange
  simp [List.map_map, Function.comp]

/-- C9 witness: `N = 3`, `Offset(1, 1)`, grossly out-of-range seeds. -/
theorem expand_index_total_witness :
    1 + 1 ≤ 3 ∧
      ∃ r, expand_index 3 ⟨1, 1⟩ [-100, 999] = Except.ok r ∧
        r = ([-100, 999] : List Int).map (fun s => (Offset.arange ⟨1, 1⟩).map
          (fun o => clamp s 1 ((3 : Int) - 1) + o)) :=
  ⟨by decide, expand_index_total 3 ⟨1, 1⟩ [-100, 999] (by decide)⟩

/-- C2 counterexample: with `N = 1 < 1 + 1 = left + right`, `expand_index`
does not raise: it returns the out-of-range window `[[-1, 0]]` for the seed
`[0]`, because `torch.clamp` with `min > max` silently maps every seed to
`max = N - right`. -/
theorem expand_index_no_failure_counterexample :
    expand_index 1 ⟨1, 1⟩ [0] = Except.ok [[-1, 0]] := by
  rw [expand_index_eq]
  rfl

/-- C2 amended: when `N < left + right`, `expand_index` does not fail; every
seed is clamped to `N - right`, every row equals the fixed window
`[N - right - left, ..., N - 1]`, and (the window being nonempty) every row
contains a negative, out-of-range entry. -/
theorem expand_index_underflow (N : Nat) (off : Offset) (index : List Int)
    (h : (N : Int) < off.left + off.right) :
    ∃ r, expand_index N off index = Except.ok r ∧
      r.length = index.length ∧
      (∀ row ∈ r, row = (List.range (off.left + off.right)).map
        (fun (j : Nat) => ((N : Int) - off.right) + ((j : Int) - off.left))) ∧
      (∀ row ∈ r, ∃ x ∈ row, x < 0) := by
  have hclamp : ∀ s : Int, clamp s off.left ((N : Int) - off.right) = (N : Int) - off.right := by
    intro s
    exact clamp_of_gt s off.left ((N : Int) - off.right) (by omega)
  refine ⟨_, expand_index_eq N off index, by simp, ?_, ?_⟩
  · intro row hrow
    rcases List.mem_map.mp hrow with ⟨s, _, rfl⟩
    simp [hclamp]
  · intro row hrow
    rcases List.mem_map.mp hrow with ⟨s, _, rfl⟩
    have h0 : (0 : Nat) ∈ List.range (off.left + off.right) := List.mem_range.mpr (by omega)
    refine ⟨_, List.mem_map.mpr ⟨0, h0, rfl⟩, ?_⟩
    simp only [hclamp]
    omega

/-- C2 amended witness: `N = 1`, `Offset(1, 1)`, seed `[5]`. -/
theorem expand_index_underflow_witness :
    ((1 : Nat) : Int) < 1 + 1 ∧
      ∃ r, expand_index 1 ⟨1, 1⟩ [5] = Except.ok r ∧
        r.length = 1 ∧
        (∀ row ∈ r, row = (List.range 2).map
          (fun (j : Nat) => (((1 : Nat) : Int) - 1) + ((j : Int) - 1))) ∧
        (∀ row ∈ r, ∃ x ∈ row, x < 0) :=
  ⟨by decide, expand_index_underflow 1 ⟨1, 1⟩ [5] (by decide)⟩

/-- C4: `Loader.__post_init__` succeeds exactly when `num_steps` is a positive
integer (not `None`) and `batch_size` is `None` or positive; in every other
case it raises a `ValueError` at construction time. -/
theorem post_init_validation (num_steps batch_size : Option Int) :
    Loader.post_init num_steps batch_size = Except.ok () ↔
      ((∃ n, num_steps = some n ∧ 0 < n) ∧ ∀ b, batch_size = some b → 0 < b) := by
  cases num_steps with
  | none => simp [Loader.post_init]
  | some n =>
    cases batch_size with
    | none =>
      by_cases hn : n ≤ 0 <;> simp [Loader.post_init, hn] <;> omega
    | some b =>
      by_cases hn : n ≤ 0 <;> by_cases hb : b ≤ 0 <;>
        simp [Loader.post_init, hn, hb] <;> omega

/-- C5: for a validly constructed Loader, `__len__` is `num_steps`, iterating
yields exactly `num_steps` batches, and the `k`-th batch is obtained by
calling `get_indices` with the loader's `batch_size` and passing the result to
`dataset.load_batch`. -/
theorem loader_len_iter {I B : Type} (l : Loader I B) (k : Nat)
    (hv : 0 < l.num_steps) (hk : k < l.num_steps) :
    l.len = l.num_steps ∧ l.iter.length = l.num_steps ∧
      l.iter[k]? = some (l.dataset.load_batch (l.get_indices k l.batch_size)) := by
  refine ⟨rfl, by simp [Loader.iter, Loader.len], ?_⟩
  simp [Loader.iter, Loader.len, List.getElem?_map, List.getElem?_range, hk]

/-- C5 witness: the concrete `sampleLoader` with two steps, at step `k = 0`. -/
theorem loader_len_iter_witness :
    0 < sampleLoader.num_steps ∧ 0 < sampleLoader.num_steps ∧
      (sampleLoader.len = sampleLoader.num_steps ∧
        sampleLoader.iter.length = sampleLoader.num_steps ∧
        sampleLoader.iter[0]? = some (sampleLoader.dataset.load_batch
          (sampleLoader.get_indices 0 sampleLoader.batch_size))) :=
  ⟨by decide, by decide, loader_len_iter sampleLoader 0 (by decide) (by decide)⟩

/-- C7: the default `continuous_index` and `discrete_index` accessors of
`Dataset` return the `None` sentinel — explicit absence, not an empty array. -/
theorem default_indices_are_none :
    Dataset.continuous_index = none ∧ Dataset.discrete_index = none ∧
      Dataset.continuous_index ≠ some [] ∧ Dataset.discrete_index ≠ some [] := by
  refine ⟨rfl, rfl, ?_, ?_⟩ <;>
    simp [Dataset.continuous_index, Dataset.discrete_index]

/-- C10: `configure_for` unconditionally overwrites the bound offset with
`model.get_offset()` — including the default `Offset(0, 1)` bound by
`__init__` — and leaves the rest of the dataset state unchanged. -/
theorem configure_for_overwrites (s : DatasetState) (m : Model) (dev : String) :
    (Dataset.configure_for s m).offset = m.get_offset ∧
    (Dataset.configure_for s m).device = s.device ∧
    (Dataset.init dev).offset = Offset.mk 0 1 ∧
    (Dataset.configure_for (Dataset.init dev) m).offset = m.get_offset :=
  ⟨rfl, rfl, rfl, rfl⟩

theorem sum_map_add (l : List Nat) (f g : Nat → Nat) :
    (l.map (fun b => f b + g b)).sum = (l.map f).sum + (l.map g).sum := by
  induction l with
  | nil => simp
  | cons v vs ih => simp [ih]; omega

theorem sum_range_indicator (v m : Nat) :
    ((List.range m).map (fun b => if v = b then 1 else 0)).sum
      = if v < m then 1 else 0 := by
  induction m with
  | zero => simp
  | succ m ih =>
    rw [List.range_succ, List.map_append, List.sum_append, ih]
    simp only [List.map_cons, List.map_nil, List.sum_cons, List.sum_nil]
    split_ifs <;> omega

theorem bincount_sum (m : Nat) (values : List Nat) (h : ∀ v ∈ values, v < m) :
    (bincount m values).sum = values.length := by
  induction values with
  | nil => simp [bincount]
  | cons v vs ih =>
    have hv : v < m := h v (by simp)
    have hvs : ∀ w ∈ vs, w < m := fun w hw => h w (by simp [hw])
    unfold bincount at ih ⊢
    calc ((List.range m).map (fun b => (v :: vs).count b)).sum
        = ((List.range m).map (fun b => vs.count b + if v = b then 1 else 0)).sum := by
          simp [List.count_cons]
      _ = ((List.range m).map (fun b => vs.count b)).sum
            + ((List.range m).map (fun b => if v = b then 1 else 0)).sum :=
          sum_map_add (List.range m) (fun b => vs.count b) (fun b => if v = b then 1 else 0)
      _ = vs.length + 1 := by rw [ih hvs, sum_range_indicator]; simp [hv]
      _ = (v :: vs).length := by simp

theorem le_listMax (l : List Nat) (v : Nat) (hv : v ∈ l) : v ≤ listMax l := by
  induction l with
  | nil => cases hv
  | cons w ws ih =>
    rcases List.mem_cons.mp hv with h | h
    · subst h
      simp only [listMax, List.foldr_cons]
      omega
    · have hle := ih h
      simp only [listMax, List.foldr_cons] at hle ⊢
      omega

theorem countHistogram_lengths (values : List Nat) :
    (countHistogram values).1.length = (countHistogram values).2.length := by
  simp [countHistogram, bincount]

theorem countHistogram_sum (values : List Nat) :
    (countHistogram values).2.sum = values.length := by
  apply bincount_sum
  intro v hv
  have := le_listMax values v hv
  omega

/-- C3: for every `spike_rate > 0` and `num_repeats`, `sample_poisson`,
`sample_spikes` and `sample_poisson_estimate` all return `(bins, histogram)`
pairs of equal-length aligned arrays with non-negative histogram entries, and
the histogram of `sample_poisson` sums to exactly `num_repeats`. -/
theorem poisson_histogram_contract (n : PoissonNeuron) (drawsP drawsS : List Nat)
    (pmf : Nat → ℚ) (m : Nat)
    (hrate : 0 < n.spike_rate)
    (hP : drawsP.length = n.num_repeats)
    (hS : drawsS.length = n.num_repeats)
    (hpmf : ∀ b, 0 ≤ pmf b) :
    ((n.sample_poisson drawsP).1.length = (n.sample_poisson drawsP).2.length ∧
      (∀ c ∈ (n.sample_poisson drawsP).2, 0 ≤ c) ∧
      (n.sample_poisson drawsP).2.sum = n.num_repeats) ∧
    ((n.sample_spikes drawsS).1.length = (n.sample_spikes drawsS).2.length ∧
      ∀ c ∈ (n.sample_spikes drawsS).2, 0 ≤ c) ∧
    ((n.sample_poisson_estimate pmf m).1.length
        = (n.sample_poisson_estimate pmf m).2.length ∧
      ∀ q ∈ (n.sample_poisson_estimate pmf m).2, 0 ≤ q) := by
  refine ⟨⟨countHistogram_lengths drawsP, fun c _ => Nat.zero_le c, ?_⟩,
    ⟨countHistogram_lengths drawsS, fun c _ => Nat.zero_le c⟩, ?_, ?_⟩
  · unfold PoissonNeuron.sample_poisson
    rw [countHistogram_sum, hP]
  · simp [PoissonNeuron.sample_poisson_estimate]
  · intro q hq
    simp only [PoissonNeuron.sample_poisson_estimate] at hq
    rcases List.mem_map.mp hq with ⟨b, _, rfl⟩
    exact mul_nonneg (hpmf b) (Nat.cast_nonneg _)

/-- C3 witness: `PoissonNeuron(40, 3)`, draws `[2, 0, 2]` and `[5, 1, 0]`,
the constant PMF `1/2`, `m = 4`. -/
theorem poisson_histogram_contract_witness :
    (0 : ℚ) < 40 ∧ ([2, 0, 2] : List Nat).length = 3 ∧
      ([5, 1, 0] : List Nat).length = 3 ∧
      (∀ b : Nat, (0 : ℚ) ≤ (fun _ => (1 : ℚ) / 2) b) ∧
      ((((⟨40, 3⟩ : PoissonNeuron).sample_poisson [2, 0, 2]).1.length
          = ((⟨40, 3⟩ : PoissonNeuron).sample_poisson [2, 0, 2]).2.length ∧
        (∀ c ∈ ((⟨40, 3⟩ : PoissonNeuron).sample_poisson [2, 0, 2]).2, 0 ≤ c) ∧
        ((⟨40, 3⟩ : PoissonNeuron).sample_poisson [2, 0, 2]).2.sum = 3) ∧
      ((((⟨40, 3⟩ : PoissonNeuron).sample_spikes [5, 1, 0]).1.length
          = ((⟨40, 3⟩ : PoissonNeuron).sample_spikes [5, 1, 0]).2.length) ∧
        ∀ c ∈ ((⟨40, 3⟩ : PoissonNeuron).sample_spikes [5, 1, 0]).2, 0 ≤ c) ∧
      ((((⟨40, 3⟩ : PoissonNeuron).sample_poisson_estimate (fun _ => (1 : ℚ) / 2) 4).1.length
          = ((⟨40, 3⟩ : PoissonNeuron).sample_poisson_estimate (fun _ => (1 : ℚ) / 2) 4).2.length) ∧
        ∀ q ∈ ((⟨40, 3⟩ : PoissonNeuron).sample_poisson_estimate (fun _ => (1 : ℚ) / 2) 4).2,
          0 ≤ q)) :=
  ⟨by norm_num, rfl, rfl, fun b => by norm_num,
    poisson_histogram_contract ⟨40, 3⟩ [2, 0, 2] [5, 1, 0] (fun _ => (1 : ℚ) / 2) 4
      (by norm_num) rfl rfl (fun b => by norm_num)⟩

/-- C6: `PoissonNeuronTransform` applied to a rate tensor returns a count
tensor whose shape is identical to the shape of the input: same `shape`
vector, same number of entries. -/
theorem transform_preserves_shape (tr : PoissonNeuronTransform)
    (draw : ℚ → Nat → ℚ → Nat) (rates : Tensor ℚ) :
    (tr.apply draw rates).shape = rates.shape ∧
    (tr.apply draw rates).data.length = rates.data.length := by
  refine ⟨rfl, ?_⟩
  simp [PoissonNeuronTransform.apply]

/-- C8: the noise registry holds exactly the keys
`poisson, gaussian, laplace, uniform, t, refractory_poisson` (in registration
order), and the registered `refractory_poisson` raises `NotImplementedError`
on every input — a signal distinct from any `ValueError`. -/
theorem noise_registry_contract (d : NoiseDraws) :
    (noiseRegistry d).map Prod.fst =
      ["poisson", "gaussian", "laplace", "uniform", "t", "refractory_poisson"] ∧
    (noiseRegistry d).lookup "refractory_poisson" = some noise_refractory_poisson ∧
    (∀ x, noise_refractory_poisson x = Except.error PyError.notImplementedError) ∧
    ∀ msg, PyError.notImplementedError ≠ PyError.valueError msg :=
  ⟨rfl, rfl, fun _ => rfl, fun _ h => PyError.noConfusion h⟩

end Cebra
